import Mathlib

/-!
# Verification of the ownership-scoped contact repository and birthday-window query

Shallow embedding of the contact-book service (`src/repository/contacts.py`,
`src/repository/users.py`, `src/routes/contacts.py`, `src/routes/users.py`).
The relational store is modelled as a Lean list of rows; each repository
function is translated into a pure function over that list, returning both the
result value and the updated store where the source commits a mutation.
Python calendar dates (`datetime.date`) are modelled by a `Date` structure with
explicit Gregorian validity, and `datetime`'s proleptic Gregorian ordinal is
modelled by `dayNumber`, following the `days_before_year`/`days_before_month`
decomposition that CPython's `datetime` module itself uses.  A Python
expression that can raise (`date.replace`, the `datetime(...)` constructor,
date overflow past year 9999) is modelled with `Option`, `none` standing for
the raised exception.
-/

deriving instance DecidableEq for Except

namespace ContactApp

/-- A calendar date as carried by `datetime.date`: year, month, day. -/
structure Date where
  year : Nat
  month : Nat
  day : Nat
deriving DecidableEq

/-- Row of the `users` table (`src/database/models.py`): the fields the
verified routes actually consult. -/
structure User where
  id : Nat
  email : String
  refresh_token : Option String
  confirmed : Bool
deriving DecidableEq

/-- Row of the `contacts` table (`src/database/models.py`). -/
structure Contact where
  id : Nat
  first_name : String
  last_name : String
  email : String
  phone_number : String
  birth_date : Date
  additional_info : Option String
  owner_id : Nat
deriving DecidableEq

/-- The payload of `ContactCreate` / `ContactUpdate` (`src/schemas.py`):
the six mutable contact fields. -/
structure ContactModel where
  first_name : String
  last_name : String
  email : String
  phone_number : String
  birth_date : Date
  additional_info : Option String
deriving DecidableEq

/-! ## Gregorian calendar model (Python `datetime.date` / `datetime.datetime`) -/

/-- Gregorian leap-year test, as used by `calendar.isleap` / CPython's
`datetime` module. -/
def isLeap (y : Nat) : Bool :=
  y % 4 == 0 && (y % 100 != 0 || y % 400 == 0)

/-- Number of days in a month of a given year. -/
def daysInMonth (y m : Nat) : Nat :=
  if m = 2 then (if isLeap y then 29 else 28)
  else if m = 4 ∨ m = 6 ∨ m = 9 ∨ m = 11 then 30
  else 31

/-- Structural validity of a date: month and day in range, year positive.
(The year-9999 upper cap of Python dates is checked separately.) -/
def validParts (d : Date) : Prop :=
  1 ≤ d.year ∧ 1 ≤ d.month ∧ d.month ≤ 12 ∧ 1 ≤ d.day ∧ d.day ≤ daysInMonth d.year d.month

instance (d : Date) : Decidable (validParts d) := by
  unfold validParts; infer_instance

/-- Model of the `datetime.date(y, m, d)` / `datetime.datetime(y, m, d)`
constructors: `none` models the `ValueError` raised on an invalid date
(including years outside `1..9999`). -/
def mkDate (y m d : Nat) : Option Date :=
  if 1 ≤ y ∧ y ≤ 9999 ∧ 1 ≤ m ∧ m ≤ 12 ∧ 1 ≤ d ∧ d ≤ daysInMonth y m then
    some ⟨y, m, d⟩
  else none

/-- Cumulative days before the start of month `m` in a non-leap year:
CPython's `_DAYS_BEFORE_MONTH` table. -/
def daysBeforeMonthTable (m : Nat) : Nat :=
  if m ≤ 1 then 0 else if m = 2 then 31 else if m = 3 then 59
  else if m = 4 then 90 else if m = 5 then 120 else if m = 6 then 151
  else if m = 7 then 181 else if m = 8 then 212 else if m = 9 then 243
  else if m = 10 then 273 else if m = 11 then 304 else 334

/-- CPython `_days_before_year`: days strictly before January 1 of year `y`,
counted from the proleptic Gregorian epoch. -/
def daysBeforeYear (y : Nat) : Nat :=
  365 * (y - 1) + (y - 1) / 4 + (y - 1) / 400 - (y - 1) / 100

/-- CPython `_days_before_month`: days in year `y` strictly before month `m`. -/
def daysBeforeMonth (y m : Nat) : Nat :=
  daysBeforeMonthTable m + (if 2 < m && isLeap y then 1 else 0)

/-- The proleptic Gregorian ordinal of a date (`date.toordinal` in Python):
the quantity whose differences give `(d1 - d2).days`. -/
def dayNumber (d : Date) : Nat :=
  daysBeforeYear d.year + daysBeforeMonth d.year d.month + d.day

/-- `(a - b).days` of Python date subtraction. -/
def dayDiff (a b : Date) : Int :=
  (dayNumber a : Int) - (dayNumber b : Int)

/-- The successor calendar date (used to model `timedelta(days=1)` steps). -/
def nextDay (d : Date) : Date :=
  if d.day < daysInMonth d.year d.month then ⟨d.year, d.month, d.day + 1⟩
  else if d.month < 12 then ⟨d.year, d.month + 1, 1⟩
  else ⟨d.year + 1, 1, 1⟩

/-- `d + timedelta(days=k)`, ignoring the year-9999 overflow (which is
checked at the use site). -/
def addDays (d : Date) : Nat → Date
  | 0 => d
  | k + 1 => nextDay (addDays d k)

/-! ## Ownership-scoped contact repository (`src/repository/contacts.py`) -/

/-- `get_contacts`: `db.query(Contact).filter(Contact.owner_id == user.id)
.offset(skip).limit(limit).all()`. -/
def get_contacts (skip limit : Nat) (user : User) (db : List Contact) : List Contact :=
  ((db.filter (fun c => c.owner_id == user.id)).drop skip).take limit

/-- `get_contact`: `db.query(Contact).filter(Contact.id == contact_id,
Contact.owner_id == user.id).first()`. -/
def get_contact (contact_id : Nat) (user : User) (db : List Contact) : Option Contact :=
  (db.filter (fun c => c.id == contact_id && c.owner_id == user.id)).head?

/-- The contacts table together with the primary-key sequence that assigns
ids on insert. -/
structure ContactStore where
  rows : List Contact
  nextId : Nat
deriving DecidableEq

/-- `create_contact` (repository): builds the row from the payload, owned by
`user`, and inserts it unconditionally. -/
def create_contact (body : ContactModel) (user : User) (db : ContactStore) :
    Contact × ContactStore :=
  let contact : Contact :=
    { id := db.nextId
      first_name := body.first_name
      last_name := body.last_name
      email := body.email
      phone_number := body.phone_number
      birth_date := body.birth_date
      additional_info := body.additional_info
      owner_id := user.id }
  (contact, ⟨db.rows ++ [contact], db.nextId + 1⟩)

/-- Overwrite the six mutable fields of a row with the payload, as the
assignment block of `update_contact` does. -/
def applyUpdate (body : ContactModel) (c : Contact) : Contact :=
  { c with
      first_name := body.first_name
      last_name := body.last_name
      email := body.email
      phone_number := body.phone_number
      birth_date := body.birth_date
      additional_info := body.additional_info }

/-- Replace the first row satisfying `p` by its image under `f` (the effect of
mutating the row returned by `.first()` and committing). -/
def replaceFirst (p : Contact → Bool) (f : Contact → Contact) : List Contact → List Contact
  | [] => []
  | c :: rest => if p c then f c :: rest else c :: replaceFirst p f rest

/-- Delete the first row satisfying `p` (the effect of `db.delete` on the row
returned by `.first()`). -/
def removeFirst (p : Contact → Bool) : List Contact → List Contact
  | [] => []
  | c :: rest => if p c then rest else c :: removeFirst p rest

/-- `update_contact`: looks up the row by contact id and owner id; if found,
overwrites all six mutable fields and returns the row, otherwise returns
`None` and leaves the store untouched. -/
def update_contact (contact_id : Nat) (body : ContactModel) (user : User)
    (db : List Contact) : Option Contact × List Contact :=
  match (db.filter (fun c => c.id == contact_id && c.owner_id == user.id)).head? with
  | none => (none, db)
  | some c =>
      (some (applyUpdate body c),
       replaceFirst (fun c => c.id == contact_id && c.owner_id == user.id)
         (applyUpdate body) db)

/-- `remove_contact`: looks up the row by contact id and owner id; if found,
deletes it and returns it, otherwise returns `None` and leaves the store
untouched. -/
def remove_contact (contact_id : Nat) (user : User) (db : List Contact) :
    Option Contact × List Contact :=
  match (db.filter (fun c => c.id == contact_id && c.owner_id == user.id)).head? with
  | none => (none, db)
  | some c =>
      (some c, removeFirst (fun c => c.id == contact_id && c.owner_id == user.id) db)

/-! ## Case-insensitive LIKE matching (`Contact.<field>.ilike(f"%{x}%")`) -/

/-- ASCII lower-casing of one character, as SQL `ILIKE` / Python `.lower()`
fold case on ASCII letters. -/
def lowerChar : Char → Char
  | 'A' => 'a' | 'B' => 'b' | 'C' => 'c' | 'D' => 'd' | 'E' => 'e' | 'F' => 'f'
  | 'G' => 'g' | 'H' => 'h' | 'I' => 'i' | 'J' => 'j' | 'K' => 'k' | 'L' => 'l'
  | 'M' => 'm' | 'N' => 'n' | 'O' => 'o' | 'P' => 'p' | 'Q' => 'q' | 'R' => 'r'
  | 'S' => 's' | 'T' => 't' | 'U' => 'u' | 'V' => 'v' | 'W' => 'w' | 'X' => 'x'
  | 'Y' => 'y' | 'Z' => 'z' | c => c

/-- A string as a case-folded character list. -/
def lowerStr (s : String) : List Char :=
  s.toList.map lowerChar

/-- SQL `LIKE` pattern matching: `'%'` matches any (possibly empty) sequence,
`'_'` matches exactly one character, anything else matches itself. -/
def likeMatch : List Char → List Char → Bool
  | [], s => s.isEmpty
  | a :: p, s =>
    if a = '%' then (s.tails).any (fun t => likeMatch p t)
    else if a = '_' then
      match s with
      | [] => false
      | _ :: t => likeMatch p t
    else
      match s with
      | [] => false
      | b :: t => a == b && likeMatch p t

/-- `field.ilike(f"%{pat}%")`: case-insensitive LIKE against the pattern
`"%" + pat + "%"`. -/
def ilikeContains (pat field : String) : Bool :=
  likeMatch ('%' :: (lowerStr pat ++ ['%'])) (lowerStr field)

/-- Does `needle` occur at the start of `hay`? -/
def startsWithChars : List Char → List Char → Bool
  | [], _ => true
  | _ :: _, [] => false
  | a :: p, b :: t => a == b && startsWithChars p t

/-- Contiguous-substring test on character lists. -/
def charsSub (needle hay : List Char) : Bool :=
  (hay.tails).any (fun t => startsWithChars needle t)

/-- Case-insensitive substring test — the spec's reading of the search
filters. -/
def containsCI (needle hay : String) : Bool :=
  charsSub (lowerStr needle) (lowerStr hay)

/-- One conditional filter step of `search_contact`: Python's
`if x: query = query.filter(Contact.field.ilike(f"%{x}%"))`, where `None`
and the empty string are falsy. -/
def applyNameFilter (o : Option String) (g : Contact → String)
    (q : List Contact) : List Contact :=
  match o with
  | none => q
  | some s => if s = "" then q else q.filter (fun c => ilikeContains s (g c))

/-- `search_contact`: owner-scoped query with the three conditional
case-insensitive filters applied in sequence. -/
def search_contact (first_name last_name email : Option String) (user : User)
    (db : List Contact) : List Contact :=
  applyNameFilter email Contact.email
    (applyNameFilter last_name Contact.last_name
      (applyNameFilter first_name Contact.first_name
        (db.filter (fun c => c.owner_id == user.id))))

/-- The per-field acceptance test as the code implements it: omitted or empty
filters accept everything, otherwise a case-insensitive LIKE on `%filter%`. -/
def optLike (o : Option String) (field : String) : Bool :=
  match o with
  | none => true
  | some s => if s = "" then true else ilikeContains s field

/-- `true` when the string contains no SQL LIKE wildcard. -/
def noWildcards (s : String) : Bool :=
  s.toList.all (fun ch => ch != '%' && ch != '_')

/-- Primary-key uniqueness of the `contacts.id` column. -/
def idsNodup (db : List Contact) : Prop :=
  (db.map Contact.id).Nodup

instance (db : List Contact) : Decidable (idsNodup db) := by
  unfold idsNodup; infer_instance

/-! ## Create-contact route (`src/routes/contacts.py`) -/

/-- The `POST /contacts/create` handler: rejects with HTTP 400 when the
requesting user already owns a contact with the payload's email, otherwise
delegates to the repository `create_contact`. -/
def route_create_contact (contact : ContactModel) (current_user : User)
    (st : ContactStore) : Except Nat Contact × ContactStore :=
  match (st.rows.filter
      (fun c => c.email == contact.email && c.owner_id == current_user.id)).head? with
  | some _ => (Except.error 400, st)
  | none =>
      let r := create_contact contact current_user st
      (Except.ok r.1, r.2)

/-! ## Refresh-token exchange (`src/routes/users.py`, `src/repository/users.py`) -/

/-- `get_user_by_email` (`src/repository/users.py`). -/
def get_user_by_email (email : String) (users : List User) : Option User :=
  (users.filter (fun u => u.email == email)).head?

/-- `update_token` (`src/repository/users.py`): sets and commits the user's
stored refresh token (identifying the row by primary key). -/
def update_token (user : User) (token : Option String) (users : List User) : List User :=
  users.map (fun x => if x.id == user.id then { x with refresh_token := token } else x)

/-- The `GET /auth/refresh_token` handler.

Modelled from the spec: `auth_service.decode_refresh_token`,
`create_access_token` and `create_refresh_token` live in
`src/services/auth.py`, which is not among the given sources.  Per the spec's
auth-layer contract, `decode` abstracts `decode_refresh_token` (`none`
models its `InvalidToken` failure, surfaced as 401), and `new_access` /
`new_refresh` stand for the freshly issued token strings.  A token decoding
to an email with no stored user makes the handler fail on attribute access
(modelled as error 500). -/
def refresh_token_route (decode : String → Option String)
    (new_access new_refresh : String) (token : String) (users : List User) :
    Except Nat (String × String) × List User :=
  match decode token with
  | none => (Except.error 401, users)
  | some email =>
    match get_user_by_email email users with
    | none => (Except.error 500, users)
    | some user =>
      if user.refresh_token ≠ some token then
        (Except.error 401, update_token user none users)
      else
        (Except.ok (new_access, new_refresh), update_token user (some new_refresh) users)

/-! ## Upcoming-birthday query (`get_upcoming_birthdays`) -/

/-- `n in range(7)` for a signed day difference. -/
def inRange7 (n : Int) : Bool :=
  decide (0 ≤ n) && decide (n < 7)

/-- The membership test of the post-filter list comprehension, evaluated
left to right with Python's short-circuit `or`:
`(datetime(today.year, b.month, b.day).date() - today).days in range(7)
 or (datetime(today.year + 1, b.month, b.day).date() - today).days in range(7)`.
`none` models the `ValueError` raised by an impossible `datetime(...)`
construction (e.g. a Feb-29 birthday probed in a non-leap year). -/
def probeOk (today b : Date) : Option Bool :=
  match mkDate today.year b.month b.day with
  | none => none
  | some d1 =>
    if inRange7 (dayDiff d1 today) then some true
    else
      match mkDate (today.year + 1) b.month b.day with
      | none => none
      | some d2 => some (inRange7 (dayDiff d2 today))

/-- The post-filter comprehension itself: first raising element aborts the
whole request. -/
def filterProbe (today : Date) : List Contact → Option (List Contact)
  | [] => some []
  | c :: rest =>
    match probeOk today c.birth_date with
    | none => none
    | some b =>
      match filterProbe today rest with
      | none => none
      | some r => some (if b then c :: r else r)

/-- The SQL-level prefilter of `get_upcoming_birthdays`: owner scoping and the
`or_(and_(month == today.month, day >= today.day, day < today.day + 7),
and_(month == next_month, day <= seven_days_later.day))` condition, with
`nmMonth` the month of `today.replace(month=today.month % 12 + 1)` and
`sevenDay` the day of `today + timedelta(days=7)`. -/
def birthdayPre (today : Date) (nmMonth sevenDay : Nat) (user : User)
    (c : Contact) : Bool :=
  c.owner_id == user.id &&
  ((c.birth_date.month == today.month && decide (today.day ≤ c.birth_date.day) &&
      decide (c.birth_date.day < today.day + 7)) ||
   (c.birth_date.month == nmMonth && decide (c.birth_date.day ≤ sevenDay)))

/-- `get_upcoming_birthdays`, with "today" made an explicit parameter.
`none` models a raised exception: the `OverflowError` of
`today + timedelta(days=7)` past year 9999, the `ValueError` of
`today.replace(month=today.month % 12 + 1)` when today's day number does not
exist in the next month, or a `ValueError` in the post-filter probes. -/
def get_upcoming_birthdays (today : Date) (user : User) (db : List Contact) :
    Option (List Contact) :=
  let seven := addDays today 7
  if 9999 < seven.year then none
  else
    match mkDate today.year (today.month % 12 + 1) today.day with
    | none => none
    | some nm =>
        filterProbe today (db.filter (birthdayPre today nm.month seven.day user))

/-- The spec's window test: the birth month/day equals the month/day of one of
`today, today + 1 day, ..., today + 6 days`. -/
def monthDayInWindow (today b : Date) : Bool :=
  (List.range 7).any (fun k =>
    (addDays today k).month == b.month && (addDays today k).day == b.day)

/-- The claim's acceptance test for C3: one of the two probe dates — the
birthday constructed in the current year and in the next year — exists and
falls within `[today, today + 7)` days of today. -/
def specProbe (today b : Date) : Bool :=
  (match mkDate today.year b.month b.day with
   | some p => inRange7 (dayDiff p today)
   | none => false) ||
  (match mkDate (today.year + 1) b.month b.day with
   | some p => inRange7 (dayDiff p today)
   | none => false)

/-! ## Calendar arithmetic lemmas -/

theorem isLeap_iff (y : Nat) :
    isLeap y = true ↔ (y % 4 = 0 ∧ (¬ y % 100 = 0 ∨ y % 400 = 0)) := by
  simp [isLeap]

theorem dby_succ (y : Nat) (hy : 1 ≤ y) :
    daysBeforeYear (y + 1) = daysBeforeYear y + 365 + (if isLeap y then 1 else 0) := by
  by_cases hL : isLeap y = true
  · rw [if_pos hL]
    rw [isLeap_iff] at hL
    unfold daysBeforeYear
    rcases hL with ⟨h4, h100 | h400⟩ <;> omega
  · rw [if_neg hL]
    rw [isLeap_iff] at hL
    push_neg at hL
    unfold daysBeforeYear
    by_cases h4 : y % 4 = 0
    · have h100 := (hL h4).1
      have h400 := (hL h4).2
      omega
    · omega

theorem daysInMonth_ge (y m : Nat) : 28 ≤ daysInMonth y m ∧ daysInMonth y m ≤ 31 := by
  unfold daysInMonth
  split
  · split <;> omega
  · split <;> omega

theorem dbm_succ (y m : Nat) (h1 : 1 ≤ m) (h2 : m ≤ 11) :
    daysBeforeMonth y (m + 1) = daysBeforeMonth y m + daysInMonth y m := by
  interval_cases m <;>
    cases hL : isLeap y <;>
      simp [daysBeforeMonth, daysBeforeMonthTable, daysInMonth, hL]

theorem date_ext {a b : Date} (h1 : a.year = b.year) (h2 : a.month = b.month)
    (h3 : a.day = b.day) : a = b := by
  cases a; cases b; simp_all

theorem dby_le_succ (y : Nat) : daysBeforeYear y ≤ daysBeforeYear (y + 1) := by
  unfold daysBeforeYear; omega

theorem dby_mono {y1 y2 : Nat} (h : y1 ≤ y2) : daysBeforeYear y1 ≤ daysBeforeYear y2 :=
  monotone_nat_of_le_succ dby_le_succ h

theorem dbm_day_bounds (y m d : Nat) (h1 : 1 ≤ m) (h2 : m ≤ 12) (h3 : 1 ≤ d)
    (h4 : d ≤ daysInMonth y m) :
    1 ≤ daysBeforeMonth y m + d ∧
    daysBeforeMonth y m + d ≤ 365 + (if isLeap y then 1 else 0) := by
  interval_cases m <;>
    cases hL : isLeap y <;>
      simp [daysBeforeMonth, daysBeforeMonthTable, daysInMonth, hL] at * <;> omega

theorem dbm_mono (y : Nat) : ∀ {m1 m2 : Nat}, 1 ≤ m1 → m1 ≤ m2 → m2 ≤ 12 →
    daysBeforeMonth y m1 ≤ daysBeforeMonth y m2 := by
  intro m1 m2
  induction m2 with
  | zero => intro h1 h12 h2; exact absurd h12 (by omega)
  | succ n ih =>
      intro h1 h12 h2
      by_cases hEq : m1 = n + 1
      · subst hEq; exact Nat.le_refl _
      · have hstep := dbm_succ y n (by omega) (by omega)
        have hih := ih h1 (by omega) (by omega)
        omega

theorem dayNumber_bounds {d : Date} (h : validParts d) :
    daysBeforeYear d.year < dayNumber d ∧ dayNumber d ≤ daysBeforeYear (d.year + 1) := by
  obtain ⟨h1, h2, h3, h4, h5⟩ := h
  have hb := dbm_day_bounds d.year d.month d.day h2 h3 h4 h5
  have hs := dby_succ d.year h1
  unfold dayNumber
  constructor <;> omega

theorem dayNumber_inj {a c : Date} (ha : validParts a) (hc : validParts c)
    (h : dayNumber a = dayNumber c) : a = c := by
  have hay : a.year = c.year := by
    rcases Nat.lt_trichotomy a.year c.year with hy | hy | hy
    · have hba := (dayNumber_bounds ha).2
      have hbc := (dayNumber_bounds hc).1
      have := dby_mono (show a.year + 1 ≤ c.year by omega)
      omega
    · exact hy
    · have hba := (dayNumber_bounds ha).1
      have hbc := (dayNumber_bounds hc).2
      have := dby_mono (show c.year + 1 ≤ a.year by omega)
      omega
  obtain ⟨a1, a2, a3, a4, a5⟩ := ha
  obtain ⟨c1, c2, c3, c4, c5⟩ := hc
  have hmd : daysBeforeMonth a.year a.month + a.day =
      daysBeforeMonth c.year c.month + c.day := by
    unfold dayNumber at h
    rw [hay] at h ⊢
    omega
  rw [hay] at hmd a5
  have ham : a.month = c.month := by
    rcases Nat.lt_trichotomy a.month c.month with hm | hm | hm
    · have h1 : daysBeforeMonth c.year (a.month + 1) =
          daysBeforeMonth c.year a.month + daysInMonth c.year a.month :=
        dbm_succ c.year a.month a2 (by omega)
      have h2 : daysBeforeMonth c.year (a.month + 1) ≤ daysBeforeMonth c.year c.month :=
        dbm_mono c.year (by omega) (by omega) c3
      omega
    · exact hm
    · have h1 : daysBeforeMonth c.year (c.month + 1) =
          daysBeforeMonth c.year c.month + daysInMonth c.year c.month :=
        dbm_succ c.year c.month c2 (by omega)
      have h2 : daysBeforeMonth c.year (c.month + 1) ≤ daysBeforeMonth c.year a.month :=
        dbm_mono c.year (by omega) (by omega) a3
      omega
  rw [ham] at hmd
  exact date_ext hay ham (by omega)

theorem validParts_nextDay {d : Date} (h : validParts d) : validParts (nextDay d) := by
  obtain ⟨h1, h2, h3, h4, h5⟩ := h
  unfold nextDay
  split
  · unfold validParts
    dsimp only
    exact ⟨h1, h2, h3, by omega, by omega⟩
  · split
    · unfold validParts
      dsimp only
      have := (daysInMonth_ge d.year (d.month + 1)).1
      exact ⟨h1, by omega, by omega, by omega, by omega⟩
    · unfold validParts
      dsimp only
      have := (daysInMonth_ge (d.year + 1) 1).1
      exact ⟨by omega, by omega, by omega, by omega, by omega⟩

theorem dayNumber_nextDay {d : Date} (h : validParts d) :
    dayNumber (nextDay d) = dayNumber d + 1 := by
  obtain ⟨h1, h2, h3, h4, h5⟩ := h
  unfold nextDay
  split
  · unfold dayNumber
    dsimp only
    omega
  · rename_i hd
    split
    · rename_i hm
      have hday : d.day = daysInMonth d.year d.month := by omega
      have hstep := dbm_succ d.year d.month h2 (by omega)
      unfold dayNumber
      dsimp only
      omega
    · rename_i hm
      have hm12 : d.month = 12 := by omega
      have hd31 : daysInMonth d.year 12 = 31 := by simp [daysInMonth]
      have hday : d.day = 31 := by rw [hm12] at h5 hd; omega
      have hs := dby_succ d.year h1
      unfold dayNumber
      dsimp only
      rw [hm12, hday]
      have hm1 : daysBeforeMonth (d.year + 1) 1 = 0 := by
        simp [daysBeforeMonth, daysBeforeMonthTable]
      have hm12v : daysBeforeMonth d.year 12 =
          334 + (if isLeap d.year then 1 else 0) := by
        simp [daysBeforeMonth, daysBeforeMonthTable]
      by_cases hL : isLeap d.year = true <;> simp [hL] at hs hm12v <;> omega

theorem addDays_valid {t : Date} (h : validParts t) (k : Nat) :
    validParts (addDays t k) := by
  induction k with
  | zero => exact h
  | succ n ih => exact validParts_nextDay ih

theorem dayNumber_addDays {t : Date} (h : validParts t) (k : Nat) :
    dayNumber (addDays t k) = dayNumber t + k := by
  induction k with
  | zero => rfl
  | succ n ih =>
      have := dayNumber_nextDay (addDays_valid h n)
      unfold addDays
      omega

theorem year_le_nextDay (d : Date) : d.year ≤ (nextDay d).year := by
  unfold nextDay
  split
  · exact Nat.le_refl _
  · split
    · exact Nat.le_refl _
    · exact Nat.le_succ _

theorem year_le_addDays (d : Date) (k : Nat) : d.year ≤ (addDays d k).year := by
  induction k with
  | zero => exact Nat.le_refl _
  | succ n ih => exact Nat.le_trans ih (year_le_nextDay (addDays d n))

theorem addDays_add (t : Date) (j k : Nat) :
    addDays t (j + k) = addDays (addDays t j) k := by
  induction k with
  | zero => rfl
  | succ n ih => rw [← Nat.add_assoc]; unfold addDays; rw [ih]

theorem year_mono_addDays (t : Date) {k j : Nat} (h : k ≤ j) :
    (addDays t k).year ≤ (addDays t j).year := by
  have : j = k + (j - k) := by omega
  rw [this, addDays_add]
  exact year_le_addDays (addDays t k) (j - k)

/-- Where a date can be after at most seven forward steps: either still in
the same month with the day advanced exactly, or in the following month
(month-of-year successor) within the first `k` days. -/
theorem addDays_week_shape {t : Date} (ht : validParts t) :
    ∀ k, k ≤ 7 →
      ((addDays t k).year = t.year ∧ (addDays t k).month = t.month ∧
        (addDays t k).day = t.day + k) ∨
      ((addDays t k).month = t.month % 12 + 1 ∧ 1 ≤ (addDays t k).day ∧
        (addDays t k).day ≤ k ∧
        ((addDays t k).year = t.year ∨
          ((addDays t k).year = t.year + 1 ∧ t.month = 12))) := by
  intro k
  induction k with
  | zero => intro _; exact Or.inl ⟨rfl, rfl, rfl⟩
  | succ n ih =>
      intro hn7
      obtain ⟨t1, t2, t3, t4, t5⟩ := ht
      have hstep : addDays t (n + 1) = nextDay (addDays t n) := rfl
      rcases ih (by omega) with ⟨hy, hm, hd⟩ | ⟨hm, hd1, hd2, hy⟩
      · by_cases hlt : (addDays t n).day < daysInMonth (addDays t n).year (addDays t n).month
        · have hnx : nextDay (addDays t n) =
              ⟨(addDays t n).year, (addDays t n).month, (addDays t n).day + 1⟩ := by
            unfold nextDay; rw [if_pos hlt]
          rw [hstep, hnx]
          left
          exact ⟨hy, hm, by dsimp only; omega⟩
        · by_cases h12 : (addDays t n).month < 12
          · have hnx : nextDay (addDays t n) =
                ⟨(addDays t n).year, (addDays t n).month + 1, 1⟩ := by
              unfold nextDay; rw [if_neg hlt, if_pos h12]
            rw [hstep, hnx]
            right
            refine ⟨by dsimp only; omega, by dsimp only; omega, by dsimp only; omega,
              Or.inl (by dsimp only; exact hy)⟩
          · have hnx : nextDay (addDays t n) = ⟨(addDays t n).year + 1, 1, 1⟩ := by
              unfold nextDay; rw [if_neg hlt, if_neg h12]
            rw [hstep, hnx]
            right
            refine ⟨by dsimp only; omega, by dsimp only; omega, by dsimp only; omega,
              Or.inr ⟨by dsimp only; omega, by omega⟩⟩
      · have hge := (daysInMonth_ge (addDays t n).year (addDays t n).month).1
        have hlt : (addDays t n).day < daysInMonth (addDays t n).year (addDays t n).month := by
          omega
        have hnx : nextDay (addDays t n) =
            ⟨(addDays t n).year, (addDays t n).month, (addDays t n).day + 1⟩ := by
          unfold nextDay; rw [if_pos hlt]
        rw [hstep, hnx]
        right
        refine ⟨by dsimp only; omega, by dsimp only; omega, by dsimp only; omega, ?_⟩
        rcases hy with hy | ⟨hy, hm12⟩
        · exact Or.inl (by dsimp only; omega)
        · exact Or.inr ⟨by dsimp only; omega, hm12⟩

/-- Once a week-window step has rolled into the following month, the later
steps of the same week advance the day one-for-one in that month. -/
theorem addDays_next_month_advance {t : Date} {k : Nat}
    (hm : (addDays t k).month = t.month % 12 + 1) (hd : (addDays t k).day ≤ k) :
    ∀ j, k ≤ j → j ≤ 7 →
      (addDays t j).month = (addDays t k).month ∧
      (addDays t j).day = (addDays t k).day + (j - k) := by
  intro j
  induction j with
  | zero => intro h0 _; have : k = 0 := by omega
            subst this; exact ⟨rfl, rfl⟩
  | succ n ih =>
      intro hkn hn7
      by_cases hEq : k = n + 1
      · subst hEq; exact ⟨rfl, by omega⟩
      · have hkn' : k ≤ n := by omega
        have ⟨ihm, ihd⟩ := ih hkn' (by omega)
        have hdn : (addDays t n).day < daysInMonth (addDays t n).year (addDays t n).month := by
          have := (daysInMonth_ge (addDays t n).year (addDays t n).month).1
          omega
        have hstep : addDays t (n + 1) = nextDay (addDays t n) := rfl
        have hnx : nextDay (addDays t n) =
            ⟨(addDays t n).year, (addDays t n).month, (addDays t n).day + 1⟩ := by
          unfold nextDay; rw [if_pos hdn]
        rw [hstep, hnx]
        exact ⟨by dsimp only; omega, by dsimp only; omega⟩

/-! ## Helper lemmas on the list model -/

theorem filter_head_eq_none {p : Contact → Bool} {db : List Contact}
    (h : ∀ c ∈ db, p c = false) : (db.filter p).head? = none := by
  have : db.filter p = [] := List.filter_eq_nil_iff.mpr (by
    intro c hc
    simp [h c hc])
  simp [this]

theorem mem_eq_of_idsNodup {db : List Contact} {c C : Contact}
    (hnd : idsNodup db) (hc : c ∈ db) (hC : C ∈ db) (hid : c.id = C.id) : c = C := by
  unfold idsNodup at hnd
  induction db with
  | nil => cases hc
  | cons x xs ih =>
      rw [List.map_cons, List.nodup_cons] at hnd
      rcases List.mem_cons.mp hc with hc1 | hc2 <;>
        rcases List.mem_cons.mp hC with hC1 | hC2
      · exact hc1.trans hC1.symm
      · subst hc1
        exact absurd (hid ▸ List.mem_map_of_mem Contact.id hC2) hnd.1
      · subst hC1
        exact absurd (hid ▸ List.mem_map_of_mem Contact.id hc2) hnd.1
      · exact ih hnd.2 hc2 hC2

/-- C1 core: the lookup predicate used by read/update/delete rejects every row
of a store whose matching-id row belongs to a different user. -/
theorem lookup_filter_empty {A B : User} {C : Contact} {db : List Contact}
    (hnd : idsNodup db) (hmem : C ∈ db) (hown : C.owner_id = A.id)
    (hne : A.id ≠ B.id) :
    ∀ c ∈ db, (c.id == C.id && c.owner_id == B.id) = false := by
  intro c hc
  by_cases hid : c.id = C.id
  · have : c = C := mem_eq_of_idsNodup hnd hc hmem hid
    subst this
    simp [hown]
    intro h
    exact hne h
  · simp [hid]

/-- **C1.** Cross-tenant isolation: for distinct users `A`, `B` and a contact
`C` owned by `A` in a store with unique contact ids, `B`'s read of `C.id`
returns the not-found sentinel `none`, and `B`'s update and delete of `C.id`
return `none` and leave the store unchanged — another user's contact is
indistinguishable from a non-existent one. -/
theorem contact_ownership_isolation (A B : User) (C : Contact) (body : ContactModel)
    (db : List Contact) (hnd : idsNodup db) (hmem : C ∈ db)
    (hown : C.owner_id = A.id) (hne : A.id ≠ B.id) :
    get_contact C.id B db = none ∧
    update_contact C.id body B db = (none, db) ∧
    remove_contact C.id B db = (none, db) := by
  have hall : ∀ c ∈ db, (c.id == C.id && c.owner_id == B.id) = false :=
    lookup_filter_empty hnd hmem hown hne
  have hhead : (db.filter (fun c => c.id == C.id && c.owner_id == B.id)).head? = none :=
    filter_head_eq_none hall
  refine ⟨?_, ?_, ?_⟩
  · unfold get_contact
    exact hhead
  · unfold update_contact
    rw [hhead]
  · unfold remove_contact
    rw [hhead]

/-- Concrete instance of C1: user 2 cannot see, update or delete the single
contact of user 1. -/
theorem contact_ownership_isolation_witness :
    get_contact 10 ⟨2, "b@x", none, true⟩
      [⟨10, "Ann", "Lee", "ann@x", "1", ⟨1990, 5, 5⟩, none, 1⟩] = none ∧
    update_contact 10 ⟨"N", "M", "n@x", "2", ⟨1991, 6, 6⟩, none⟩ ⟨2, "b@x", none, true⟩
      [⟨10, "Ann", "Lee", "ann@x", "1", ⟨1990, 5, 5⟩, none, 1⟩] =
      (none, [⟨10, "Ann", "Lee", "ann@x", "1", ⟨1990, 5, 5⟩, none, 1⟩]) ∧
    remove_contact 10 ⟨2, "b@x", none, true⟩
      [⟨10, "Ann", "Lee", "ann@x", "1", ⟨1990, 5, 5⟩, none, 1⟩] =
      (none, [⟨10, "Ann", "Lee", "ann@x", "1", ⟨1990, 5, 5⟩, none, 1⟩]) := by
  have h := contact_ownership_isolation ⟨1, "a@x", none, true⟩ ⟨2, "b@x", none, true⟩
    ⟨10, "Ann", "Lee", "ann@x", "1", ⟨1990, 5, 5⟩, none, 1⟩
    ⟨"N", "M", "n@x", "2", ⟨1991, 6, 6⟩, none⟩
    [⟨10, "Ann", "Lee", "ann@x", "1", ⟨1990, 5, 5⟩, none, 1⟩]
    (by decide) (by decide) (by decide) (by decide)
  exact ⟨h.1, h.2.1, h.2.2⟩

theorem filter_head_eq_some {p : Contact → Bool} {l1 l2 : List Contact} {c : Contact}
    (h1 : ∀ x ∈ l1, p x = false) (hc : p c = true) :
    ((l1 ++ c :: l2).filter p).head? = some c := by
  induction l1 with
  | nil => simp [hc]
  | cons x xs ih =>
      have hx : p x = false := h1 x (List.mem_cons_self x xs)
      simpa [hx] using ih (fun y hy => h1 y (List.mem_cons_of_mem x hy))

theorem removeFirst_append {p : Contact → Bool} {l1 l2 : List Contact} {c : Contact}
    (h1 : ∀ x ∈ l1, p x = false) (hc : p c = true) :
    removeFirst p (l1 ++ c :: l2) = l1 ++ l2 := by
  induction l1 with
  | nil => simp [removeFirst, hc]
  | cons x xs ih =>
      have hx : p x = false := h1 x (List.mem_cons_self x xs)
      simp [removeFirst, hx]
      exact ih (fun y hy => h1 y (List.mem_cons_of_mem x hy))

theorem exists_head_some {p : Contact → Bool} {db : List Contact} {c : Contact}
    (hc : c ∈ db) (hp : p c = true) : ∃ a, (db.filter p).head? = some a := by
  have hmemf : c ∈ db.filter p := List.mem_filter.mpr ⟨hc, hp⟩
  cases hfl : db.filter p with
  | nil => rw [hfl] at hmemf; cases hmemf
  | cons a t => exact ⟨a, rfl⟩

theorem replaceFirst_append {p : Contact → Bool} {f : Contact → Contact}
    {l1 l2 : List Contact} {c : Contact}
    (h1 : ∀ x ∈ l1, p x = false) (hc : p c = true) :
    replaceFirst p f (l1 ++ c :: l2) = l1 ++ f c :: l2 := by
  induction l1 with
  | nil => simp [replaceFirst, hc]
  | cons x xs ih =>
      have hx : p x = false := h1 x (List.mem_cons_self x xs)
      simp [replaceFirst, hx]
      exact ih (fun y hy => h1 y (List.mem_cons_of_mem x hy))

/-- **C5.** `update_contact`: when the user owns a contact with the given id
(the first matching row `c` of the store), the operation returns exactly that
contact with its six mutable fields replaced by the supplied payload (id and
owner preserved), and the store's matching row — and only it — is replaced by
this updated record in place; otherwise it returns the not-found sentinel
`none` and the store is returned unchanged, mutating no row. -/
theorem update_contact_spec (contact_id : Nat) (body : ContactModel) (u : User)
    (db : List Contact) :
    (¬(∃ c ∈ db, c.id = contact_id ∧ c.owner_id = u.id) →
       update_contact contact_id body u db = (none, db)) ∧
    (∀ l1 c l2, db = l1 ++ c :: l2 →
       (∀ x ∈ l1, ¬(x.id = contact_id ∧ x.owner_id = u.id)) →
       c.id = contact_id → c.owner_id = u.id →
       ∃ r, update_contact contact_id body u db = (some r, l1 ++ r :: l2) ∧
         r.id = c.id ∧ r.owner_id = c.owner_id ∧
         r.first_name = body.first_name ∧ r.last_name = body.last_name ∧
         r.email = body.email ∧ r.phone_number = body.phone_number ∧
         r.birth_date = body.birth_date ∧
         r.additional_info = body.additional_info) := by
  constructor
  · intro hno
    have hall : ∀ c ∈ db, (c.id == contact_id && c.owner_id == u.id) = false := by
      intro c hcmem
      by_contra hne
      rcases Bool.eq_false_or_eq_true (c.id == contact_id && c.owner_id == u.id)
        with h | h
      · simp only [Bool.and_eq_true, beq_iff_eq] at h
        exact hno ⟨c, hcmem, h.1, h.2⟩
      · exact hne h
    unfold update_contact
    rw [filter_head_eq_none hall]
  · intro l1 c l2 hdb h1 hid hown
    subst hdb
    have h1b : ∀ x ∈ l1, (x.id == contact_id && x.owner_id == u.id) = false := by
      intro x hx
      rcases Bool.eq_false_or_eq_true (x.id == contact_id && x.owner_id == u.id)
        with h | h
      · simp only [Bool.and_eq_true, beq_iff_eq] at h
        exact absurd h (h1 x hx)
      · exact h
    have hcb : (c.id == contact_id && c.owner_id == u.id) = true := by
      simp [hid, hown]
    unfold update_contact
    rw [filter_head_eq_some h1b hcb, replaceFirst_append h1b hcb]
    exact ⟨applyUpdate body c, rfl, rfl, rfl, rfl, rfl, rfl, rfl, rfl, rfl⟩

/-- Concrete instance of C5: updating an owned contact replaces all six
fields of that stored row in place (id and owner kept); updating a foreign id
is a no-op returning `none`. -/
theorem update_contact_spec_witness :
    update_contact 7 ⟨"N", "M", "n@x", "2", ⟨1991, 6, 6⟩, some "z"⟩ ⟨1, "a@x", none, true⟩
      [⟨5, "Bob", "Fox", "bob@x", "3", ⟨1980, 2, 2⟩, none, 2⟩,
       ⟨7, "Ann", "Lee", "ann@x", "1", ⟨1990, 5, 5⟩, none, 1⟩] =
      (some ⟨7, "N", "M", "n@x", "2", ⟨1991, 6, 6⟩, some "z", 1⟩,
       [⟨5, "Bob", "Fox", "bob@x", "3", ⟨1980, 2, 2⟩, none, 2⟩,
        ⟨7, "N", "M", "n@x", "2", ⟨1991, 6, 6⟩, some "z", 1⟩]) ∧
    update_contact 8 ⟨"N", "M", "n@x", "2", ⟨1991, 6, 6⟩, some "z"⟩ ⟨1, "a@x", none, true⟩
      [⟨7, "Ann", "Lee", "ann@x", "1", ⟨1990, 5, 5⟩, none, 1⟩] =
      (none, [⟨7, "Ann", "Lee", "ann@x", "1", ⟨1990, 5, 5⟩, none, 1⟩]) := by
  constructor
  · obtain ⟨r, hr, hrid, hrown, h1, h2, h3, h4, h5, h6⟩ :=
      (update_contact_spec 7 ⟨"N", "M", "n@x", "2", ⟨1991, 6, 6⟩, some "z"⟩
        ⟨1, "a@x", none, true⟩
        [⟨5, "Bob", "Fox", "bob@x", "3", ⟨1980, 2, 2⟩, none, 2⟩,
         ⟨7, "Ann", "Lee", "ann@x", "1", ⟨1990, 5, 5⟩, none, 1⟩]).2
        [⟨5, "Bob", "Fox", "bob@x", "3", ⟨1980, 2, 2⟩, none, 2⟩]
        ⟨7, "Ann", "Lee", "ann@x", "1", ⟨1990, 5, 5⟩, none, 1⟩ []
        rfl (by decide) rfl rfl
    have hrec : r = ⟨7, "N", "M", "n@x", "2", ⟨1991, 6, 6⟩, some "z", 1⟩ := by
      cases r
      simp_all
    rw [hr, hrec]
    decide
  · exact (update_contact_spec 8 ⟨"N", "M", "n@x", "2", ⟨1991, 6, 6⟩, some "z"⟩
      ⟨1, "a@x", none, true⟩
      [⟨7, "Ann", "Lee", "ann@x", "1", ⟨1990, 5, 5⟩, none, 1⟩]).1
      (by decide)

/-- **C6.** `remove_contact`: when the user owns a contact with the given id,
the operation removes exactly that row (the earlier rows and the later rows
survive unchanged) and returns the removed record; otherwise it returns the
not-found sentinel `none` and the store is returned unchanged. -/
theorem remove_contact_spec (contact_id : Nat) (u : User) (db : List Contact) :
    (¬(∃ c ∈ db, c.id = contact_id ∧ c.owner_id = u.id) →
       remove_contact contact_id u db = (none, db)) ∧
    (∀ l1 c l2, db = l1 ++ c :: l2 →
       (∀ x ∈ l1, ¬(x.id = contact_id ∧ x.owner_id = u.id)) →
       c.id = contact_id → c.owner_id = u.id →
       remove_contact contact_id u db = (some c, l1 ++ l2)) := by
  constructor
  · intro hno
    have hall : ∀ c ∈ db, (c.id == contact_id && c.owner_id == u.id) = false := by
      intro c hcmem
      by_contra hne
      rcases Bool.eq_false_or_eq_true (c.id == contact_id && c.owner_id == u.id)
        with h | h
      · simp only [Bool.and_eq_true, beq_iff_eq] at h
        exact hno ⟨c, hcmem, h.1, h.2⟩
      · exact hne h
    unfold remove_contact
    rw [filter_head_eq_none hall]
  · intro l1 c l2 hdb h1 hid hown
    subst hdb
    have h1b : ∀ x ∈ l1, (x.id == contact_id && x.owner_id == u.id) = false := by
      intro x hx
      rcases Bool.eq_false_or_eq_true (x.id == contact_id && x.owner_id == u.id)
        with h | h
      · simp only [Bool.and_eq_true, beq_iff_eq] at h
        exact absurd h (h1 x hx)
      · exact h
    have hcb : (c.id == contact_id && c.owner_id == u.id) = true := by
      simp [hid, hown]
    unfold remove_contact
    rw [filter_head_eq_some h1b hcb, removeFirst_append h1b hcb]

/-- Concrete instance of C6: deleting an owned contact removes exactly that
row; deleting a non-existent id is a no-op returning `none`. -/
theorem remove_contact_spec_witness :
    remove_contact 7 ⟨1, "a@x", none, true⟩
      [⟨5, "Bob", "Fox", "bob@x", "3", ⟨1980, 2, 2⟩, none, 1⟩,
       ⟨7, "Ann", "Lee", "ann@x", "1", ⟨1990, 5, 5⟩, none, 1⟩] =
      (some ⟨7, "Ann", "Lee", "ann@x", "1", ⟨1990, 5, 5⟩, none, 1⟩,
       [⟨5, "Bob", "Fox", "bob@x", "3", ⟨1980, 2, 2⟩, none, 1⟩]) ∧
    remove_contact 9 ⟨1, "a@x", none, true⟩
      [⟨5, "Bob", "Fox", "bob@x", "3", ⟨1980, 2, 2⟩, none, 1⟩] =
      (none, [⟨5, "Bob", "Fox", "bob@x", "3", ⟨1980, 2, 2⟩, none, 1⟩]) := by
  constructor
  · exact (remove_contact_spec 7 ⟨1, "a@x", none, true⟩ _).2
      [⟨5, "Bob", "Fox", "bob@x", "3", ⟨1980, 2, 2⟩, none, 1⟩]
      ⟨7, "Ann", "Lee", "ann@x", "1", ⟨1990, 5, 5⟩, none, 1⟩ []
      rfl (by decide) rfl rfl
  · exact (remove_contact_spec 9 ⟨1, "a@x", none, true⟩ _).1 (by decide)

/-- **C10.** `get_contacts`: pagination over the owned contacts in store
(insertion) order — the result has `min limit (owned - skip)` entries and its
`i`-th entry is the `(skip + i)`-th owned contact. -/
theorem get_contacts_spec (skip limit : Nat) (u : User) (db : List Contact)
    (i : Nat) (h : i < limit) :
    (get_contacts skip limit u db).length =
      min limit ((db.filter (fun c => c.owner_id == u.id)).length - skip) ∧
    (get_contacts skip limit u db)[i]? =
      (db.filter (fun c => c.owner_id == u.id))[skip + i]? := by
  unfold get_contacts
  constructor
  · rw [List.length_take, List.length_drop]
  · rw [List.getElem?_take_of_lt h, List.getElem?_drop]

/-- Concrete instance of C10: with `skip = 1`, `limit = 2`, the page of user
1's three contacts is the second and third of them, in order. -/
theorem get_contacts_spec_witness :
    (get_contacts 1 2 ⟨1, "a@x", none, true⟩
      [⟨5, "Bob", "Fox", "bob@x", "3", ⟨1980, 2, 2⟩, none, 1⟩,
       ⟨6, "Cal", "Ray", "cal@x", "4", ⟨1981, 3, 3⟩, none, 2⟩,
       ⟨7, "Ann", "Lee", "ann@x", "1", ⟨1990, 5, 5⟩, none, 1⟩,
       ⟨8, "Dan", "Kim", "dan@x", "5", ⟨1982, 4, 4⟩, none, 1⟩]).length = 2 ∧
    (get_contacts 1 2 ⟨1, "a@x", none, true⟩
      [⟨5, "Bob", "Fox", "bob@x", "3", ⟨1980, 2, 2⟩, none, 1⟩,
       ⟨6, "Cal", "Ray", "cal@x", "4", ⟨1981, 3, 3⟩, none, 2⟩,
       ⟨7, "Ann", "Lee", "ann@x", "1", ⟨1990, 5, 5⟩, none, 1⟩,
       ⟨8, "Dan", "Kim", "dan@x", "5", ⟨1982, 4, 4⟩, none, 1⟩])[0]? =
      some ⟨7, "Ann", "Lee", "ann@x", "1", ⟨1990, 5, 5⟩, none, 1⟩ := by
  have h := get_contacts_spec 1 2 ⟨1, "a@x", none, true⟩
    [⟨5, "Bob", "Fox", "bob@x", "3", ⟨1980, 2, 2⟩, none, 1⟩,
     ⟨6, "Cal", "Ray", "cal@x", "4", ⟨1981, 3, 3⟩, none, 2⟩,
     ⟨7, "Ann", "Lee", "ann@x", "1", ⟨1990, 5, 5⟩, none, 1⟩,
     ⟨8, "Dan", "Kim", "dan@x", "5", ⟨1982, 4, 4⟩, none, 1⟩] 0 (by decide)
  constructor
  · rw [h.1]; decide
  · rw [h.2]; decide

/-! ## Search semantics (C7) -/

theorem any_congr {α : Type} {l : List α} {f g : α → Bool}
    (h : ∀ x ∈ l, f x = g x) : l.any f = l.any g := by
  induction l with
  | nil => rfl
  | cons x xs ih =>
      simp only [List.any_cons, h x (List.mem_cons_self x xs)]
      rw [ih (fun y hy => h y (List.mem_cons_of_mem x hy))]

theorem likeMatch_percent (h : List Char) : likeMatch ['%'] h = true := by
  simp only [likeMatch, if_true, List.any_eq_true]
  exact ⟨[], (List.mem_tails [] h).mpr List.nil_suffix, rfl⟩

theorem likeMatch_wildfree (n : List Char) (hn : ∀ ch ∈ n, ch ≠ '%' ∧ ch ≠ '_') :
    ∀ h, likeMatch (n ++ ['%']) h = startsWithChars n h := by
  induction n with
  | nil =>
      intro h
      simpa [startsWithChars] using likeMatch_percent h
  | cons a p ih =>
      intro h
      have ha := hn a (List.mem_cons_self a p)
      have hp : ∀ ch ∈ p, ch ≠ '%' ∧ ch ≠ '_' :=
        fun ch hch => hn ch (List.mem_cons_of_mem a hch)
      cases h with
      | nil => simp [likeMatch, startsWithChars, ha.1, ha.2]
      | cons b t => simp [likeMatch, startsWithChars, ha.1, ha.2, ih hp t]

theorem lowerChar_wild (c : Char) (h1 : c ≠ '%') (h2 : c ≠ '_') :
    lowerChar c ≠ '%' ∧ lowerChar c ≠ '_' := by
  unfold lowerChar
  split <;> first | decide | exact ⟨h1, h2⟩

/-- For wildcard-free filters, the code's LIKE test coincides with the spec's
case-insensitive substring test. -/
theorem ilike_eq_contains (s field : String) (hnw : noWildcards s = true) :
    ilikeContains s field = containsCI s field := by
  have hs : ∀ x ∈ s.toList, x ≠ '%' ∧ x ≠ '_' := by
    simpa [noWildcards, List.all_eq_true, and_assoc] using hnw
  have hn : ∀ ch ∈ lowerStr s, ch ≠ '%' ∧ ch ≠ '_' := by
    intro ch hch
    rcases List.mem_map.mp hch with ⟨c, hc, rfl⟩
    exact lowerChar_wild c (hs c hc).1 (hs c hc).2
  unfold ilikeContains containsCI charsSub
  simp only [likeMatch, if_true]
  exact any_congr (fun t _ => likeMatch_wildfree (lowerStr s) hn t)

theorem applyNameFilter_eq (o : Option String) (g : Contact → String)
    (q : List Contact) : applyNameFilter o g q = q.filter (fun c => optLike o (g c)) := by
  rcases o with _ | s
  · simp [applyNameFilter, optLike]
  · by_cases h : s = ""
    · subst h; simp [applyNameFilter, optLike]
    · simp [applyNameFilter, optLike, h]

/-- **C7 (amended).** `search_contact` returns exactly the requester's owned
contacts passing all supplied filters ANDed together, where each non-empty
filter is a case-insensitive SQL LIKE test on the pattern `%filter%`
(`optLike`); omitted or empty filters do not restrict.  For filters free of
the LIKE wildcards `%` and `_`, the LIKE test is exactly the claimed
case-insensitive substring match. -/
theorem search_contact_spec (fn ln em : Option String) (u : User) (db : List Contact) :
    search_contact fn ln em u db =
      db.filter (fun c => c.owner_id == u.id && optLike fn c.first_name &&
        optLike ln c.last_name && optLike em c.email) ∧
    (∀ s field, noWildcards s = true → ilikeContains s field = containsCI s field) := by
  constructor
  · unfold search_contact
    rw [applyNameFilter_eq, applyNameFilter_eq, applyNameFilter_eq]
    simp only [List.filter_filter]
    apply List.filter_congr
    intro c _
    have hb : ∀ a b c d : Bool, (d && (c && (b && a))) = (a && b && c && d) := by decide
    exact hb _ _ _ _
  · exact fun s field h => ilike_eq_contains s field h

/-- Counterexample to C7 as stated: the filter string `"J%n"` contains a LIKE
wildcard, so the code returns the contact `John` although `"J%n"` is not a
case-insensitive substring of `"John"`. -/
theorem search_contact_substring_cex :
    search_contact (some "J%n") none none ⟨1, "a@x", none, true⟩
      [⟨1, "John", "Doe", "john@x", "1", ⟨1990, 5, 5⟩, none, 1⟩] =
      [⟨1, "John", "Doe", "john@x", "1", ⟨1990, 5, 5⟩, none, 1⟩] ∧
    containsCI "J%n" "John" = false := by decide

/-- Concrete instance of C7 (amended): owner scoping plus conjunction of the
supplied filters, and LIKE agreeing with substring search on a wildcard-free
filter. -/
theorem search_contact_spec_witness :
    search_contact (some "oh") none (some "X.com") ⟨1, "a@x", none, true⟩
      [⟨1, "John", "Doe", "john@X.com", "1", ⟨1990, 5, 5⟩, none, 1⟩,
       ⟨2, "Johan", "Ray", "johan@y.org", "2", ⟨1991, 6, 6⟩, none, 1⟩,
       ⟨3, "John", "Fox", "john@X.com", "3", ⟨1992, 7, 7⟩, none, 2⟩] =
      [⟨1, "John", "Doe", "john@X.com", "1", ⟨1990, 5, 5⟩, none, 1⟩] ∧
    ilikeContains "oh" "Johan" = containsCI "oh" "Johan" := by
  have h := search_contact_spec (some "oh") none (some "X.com") ⟨1, "a@x", none, true⟩
    [⟨1, "John", "Doe", "john@X.com", "1", ⟨1990, 5, 5⟩, none, 1⟩,
     ⟨2, "Johan", "Ray", "johan@y.org", "2", ⟨1991, 6, 6⟩, none, 1⟩,
     ⟨3, "John", "Fox", "john@X.com", "3", ⟨1992, 7, 7⟩, none, 2⟩]
  exact ⟨by rw [h.1]; decide, h.2 "oh" "Johan" (by decide)⟩

/-- **C8.** Contact-email uniqueness is per-owner and enforced by the route:
the route fails with 400 (store unchanged) exactly when the requesting user
already owns a contact with that email; otherwise the new owned contact is
appended — regardless of other users' contacts with the same email — and the
repository `create_contact` itself inserts unconditionally. -/
theorem create_contact_email_scope (body : ContactModel) (u : User) (st : ContactStore) :
    ((∃ c ∈ st.rows, c.email = body.email ∧ c.owner_id = u.id) →
       route_create_contact body u st = (Except.error 400, st)) ∧
    (¬(∃ c ∈ st.rows, c.email = body.email ∧ c.owner_id = u.id) →
       ∃ nc, route_create_contact body u st =
           (Except.ok nc, ⟨st.rows ++ [nc], st.nextId + 1⟩) ∧
         nc.email = body.email ∧ nc.owner_id = u.id) ∧
    (create_contact body u st).2.rows = st.rows ++ [(create_contact body u st).1] := by
  refine ⟨?_, ?_, rfl⟩
  · rintro ⟨c, hcmem, hem, hown⟩
    obtain ⟨a, ha⟩ := @exists_head_some
      (fun c => c.email == body.email && c.owner_id == u.id) st.rows c
      hcmem (by simp [hem, hown])
    unfold route_create_contact
    rw [ha]
  · intro hno
    have hall : ∀ c ∈ st.rows, (c.email == body.email && c.owner_id == u.id) = false := by
      intro c hcmem
      rcases Bool.eq_false_or_eq_true (c.email == body.email && c.owner_id == u.id)
        with h | h
      · simp only [Bool.and_eq_true, beq_iff_eq] at h
        exact absurd ⟨c, hcmem, h.1, h.2⟩ hno
      · exact h
    unfold route_create_contact
    rw [filter_head_eq_none hall]
    exact ⟨(create_contact body u st).1, rfl, rfl, rfl⟩

/-- Concrete instance of C8: user 1's duplicate email is rejected with 400
and the store is unchanged, while user 2 creating a contact with the very
same email string succeeds. -/
theorem create_contact_email_scope_witness :
    route_create_contact ⟨"New", "Guy", "ann@x", "9", ⟨1993, 8, 8⟩, none⟩
      ⟨1, "a@x", none, true⟩
      ⟨[⟨10, "Ann", "Lee", "ann@x", "1", ⟨1990, 5, 5⟩, none, 1⟩], 11⟩ =
      (Except.error 400,
       ⟨[⟨10, "Ann", "Lee", "ann@x", "1", ⟨1990, 5, 5⟩, none, 1⟩], 11⟩) ∧
    route_create_contact ⟨"New", "Guy", "ann@x", "9", ⟨1993, 8, 8⟩, none⟩
      ⟨2, "b@x", none, true⟩
      ⟨[⟨10, "Ann", "Lee", "ann@x", "1", ⟨1990, 5, 5⟩, none, 1⟩], 11⟩ =
      (Except.ok ⟨11, "New", "Guy", "ann@x", "9", ⟨1993, 8, 8⟩, none, 2⟩,
       ⟨[⟨10, "Ann", "Lee", "ann@x", "1", ⟨1990, 5, 5⟩, none, 1⟩,
         ⟨11, "New", "Guy", "ann@x", "9", ⟨1993, 8, 8⟩, none, 2⟩], 12⟩) := by
  refine ⟨(create_contact_email_scope ⟨"New", "Guy", "ann@x", "9", ⟨1993, 8, 8⟩, none⟩
      ⟨1, "a@x", none, true⟩
      ⟨[⟨10, "Ann", "Lee", "ann@x", "1", ⟨1990, 5, 5⟩, none, 1⟩], 11⟩).1
      ⟨⟨10, "Ann", "Lee", "ann@x", "1", ⟨1990, 5, 5⟩, none, 1⟩, by decide, rfl, rfl⟩,
    by decide⟩

theorem update_token_sets {u : User} {t : Option String} {users : List User} :
    ∀ x ∈ update_token u t users, x.id = u.id → x.refresh_token = t := by
  intro x hx hid
  unfold update_token at hx
  rcases List.mem_map.mp hx with ⟨y, hy, hxy⟩
  by_cases h : y.id == u.id
  · rw [if_pos h] at hxy
    rw [← hxy]
  · rw [if_neg h] at hxy
    subst hxy
    exact absurd (by simp [hid]) h

/-- **C9.** Refresh-token exchange: for a stored user whose email the
presented token decodes to, a mismatch with the stored refresh token yields
401 and clears the stored token to `None`, while a match yields the new
access/refresh pair and stores the newly issued refresh token. -/
theorem refresh_token_spec (decode : String → Option String)
    (na nr token : String) (users : List User) (u : User)
    (hdec : decode token = some u.email)
    (hfind : get_user_by_email u.email users = some u) :
    (u.refresh_token ≠ some token →
       refresh_token_route decode na nr token users =
         (Except.error 401, update_token u none users) ∧
       ∀ x ∈ update_token u none users, x.id = u.id → x.refresh_token = none) ∧
    (u.refresh_token = some token →
       refresh_token_route decode na nr token users =
         (Except.ok (na, nr), update_token u (some nr) users) ∧
       ∀ x ∈ update_token u (some nr) users, x.id = u.id →
         x.refresh_token = some nr) := by
  constructor
  · intro hne
    refine ⟨?_, update_token_sets⟩
    simp only [refresh_token_route, hdec, hfind]
    rw [if_pos hne]
  · intro heq
    refine ⟨?_, update_token_sets⟩
    simp only [refresh_token_route, hdec, hfind]
    rw [if_neg (by simp [heq])]

/-- Concrete instance of C9: a stale presented token is rejected with 401 and
invalidates the stored token; the matching token is exchanged for the new
pair, which replaces the stored refresh token. -/
theorem refresh_token_spec_witness :
    refresh_token_route (fun t => if t = "RT" ∨ t = "OLD" then some "a@x" else none)
      "ACC2" "RT2" "OLD" [⟨1, "a@x", some "RT", true⟩] =
      (Except.error 401, [⟨1, "a@x", none, true⟩]) ∧
    refresh_token_route (fun t => if t = "RT" ∨ t = "OLD" then some "a@x" else none)
      "ACC2" "RT2" "RT" [⟨1, "a@x", some "RT", true⟩] =
      (Except.ok ("ACC2", "RT2"), [⟨1, "a@x", some "RT2", true⟩]) := by
  constructor
  · have h := (refresh_token_spec (fun t => if t = "RT" ∨ t = "OLD" then some "a@x" else none)
      "ACC2" "RT2" "OLD" [⟨1, "a@x", some "RT", true⟩] ⟨1, "a@x", some "RT", true⟩
      (by decide) (by decide)).1 (by decide)
    rw [h.1]
    decide
  · have h := (refresh_token_spec (fun t => if t = "RT" ∨ t = "OLD" then some "a@x" else none)
      "ACC2" "RT2" "RT" [⟨1, "a@x", some "RT", true⟩] ⟨1, "a@x", some "RT", true⟩
      (by decide) (by decide)).2 (by decide)
    rw [h.1]
    decide

/-! ## Birthday-window semantics (C2, C3, C4) -/

theorem mkDate_eq_some {y m d : Nat} {p : Date} (h : mkDate y m d = some p) :
    p = ⟨y, m, d⟩ ∧ validParts p ∧ y ≤ 9999 := by
  unfold mkDate at h
  split at h
  · rename_i hc
    obtain ⟨a, b, c2, d2, e, f⟩ := hc
    injection h with h'
    subst h'
    exact ⟨rfl, ⟨a, c2, d2, e, f⟩, b⟩
  · cases h

theorem mkDate_of_valid {p : Date} (hp : validParts p) (hy : p.year ≤ 9999) :
    mkDate p.year p.month p.day = some p := by
  obtain ⟨a, b, c, d, e⟩ := hp
  unfold mkDate
  rw [if_pos ⟨a, hy, b, c, d, e⟩]

theorem inRange7_iff (n : Int) : inRange7 n = true ↔ (0 ≤ n ∧ n < 7) := by
  simp [inRange7]

theorem inRange7_neg {n : Int} (h : n < 0) : inRange7 n = false := by
  simp [inRange7]
  omega

/-- A valid date whose day difference from `today` lies in `[0, 7)` realizes
the month/day window membership. -/
theorem window_of_probe {t b : Date} (ht : validParts t) {yy : Nat} {p : Date}
    (hmk : mkDate yy b.month b.day = some p)
    (hr : inRange7 (dayDiff p t) = true) :
    monthDayInWindow t b = true := by
  obtain ⟨hp, hpv, _⟩ := mkDate_eq_some hmk
  rw [inRange7_iff] at hr
  unfold dayDiff at hr
  have hle : dayNumber t ≤ dayNumber p := by omega
  have hk7 : dayNumber p - dayNumber t < 7 := by omega
  have hdn : dayNumber (addDays t (dayNumber p - dayNumber t)) = dayNumber p := by
    rw [dayNumber_addDays ht]
    omega
  have hw : addDays t (dayNumber p - dayNumber t) = p :=
    dayNumber_inj (addDays_valid ht _) hpv hdn
  unfold monthDayInWindow
  rw [List.any_eq_true]
  refine ⟨dayNumber p - dayNumber t, List.mem_range.mpr hk7, ?_⟩
  rw [hw, hp]
  simp

/-- Window membership makes the code's probe test succeed (`some true`) and
the claim's probe test hold, provided the week does not overflow year 9999. -/
theorem probe_of_window {t b : Date} (ht : validParts t)
    (hcap : (addDays t 7).year ≤ 9999)
    (hw : monthDayInWindow t b = true) :
    probeOk t b = some true ∧ specProbe t b = true := by
  unfold monthDayInWindow at hw
  rw [List.any_eq_true] at hw
  obtain ⟨k, hkmem, hkeq⟩ := hw
  have hk7 : k < 7 := List.mem_range.mp hkmem
  simp only [Bool.and_eq_true, beq_iff_eq] at hkeq
  obtain ⟨hbm, hbd⟩ := hkeq
  have hwv : validParts (addDays t k) := addDays_valid ht k
  have hcapk : (addDays t k).year ≤ 9999 :=
    le_trans (year_mono_addDays t (by omega)) hcap
  have hdnk : dayNumber (addDays t k) = dayNumber t + k := dayNumber_addDays ht k
  have hdiff : dayDiff (addDays t k) t = (k : Int) := by
    unfold dayDiff
    omega
  have hir : inRange7 (dayDiff (addDays t k) t) = true := by
    rw [hdiff]
    exact (inRange7_iff _).mpr ⟨by omega, by omega⟩
  have hyearcase : (addDays t k).year = t.year ∨
      ((addDays t k).year = t.year + 1 ∧ (addDays t k).month = 1 ∧
        (addDays t k).day ≤ k) := by
    rcases addDays_week_shape ht k (by omega) with ⟨hy, _, _⟩ | ⟨hm, _, hd2, hy⟩
    · exact Or.inl hy
    · rcases hy with hy | ⟨hy, hm12⟩
      · exact Or.inl hy
      · refine Or.inr ⟨hy, ?_, hd2⟩
        rw [hm, hm12]
  rcases hyearcase with hy | ⟨hy, hm1, hdk⟩
  · have hmk : mkDate t.year b.month b.day = some (addDays t k) := by
      rw [← hy, ← hbm, ← hbd]
      exact mkDate_of_valid hwv hcapk
    constructor
    · unfold probeOk
      rw [hmk]
      dsimp only
      rw [if_pos hir]
    · unfold specProbe
      rw [hmk]
      dsimp only
      rw [hir]
      simp
  · -- the window element sits in January of the next year
    have hbm1 : b.month = 1 := by rw [← hbm, hm1]
    have hbd1 : 1 ≤ b.day := by rw [← hbd]; exact hwv.2.2.2.1
    have hwrec : addDays t k = ⟨t.year + 1, 1, b.day⟩ := date_ext hy hm1 hbd
    have hd1valid : validParts ⟨t.year, 1, b.day⟩ := by
      unfold validParts
      dsimp only
      have h31 : daysInMonth t.year 1 = 31 := by simp [daysInMonth]
      rw [h31]
      exact ⟨ht.1, by omega, by omega, hbd1, by omega⟩
    have hty : t.year ≤ 9999 := by omega
    have hmk1 : mkDate t.year b.month b.day = some ⟨t.year, 1, b.day⟩ := by
      rw [hbm1]
      exact mkDate_of_valid hd1valid hty
    have hmk2 : mkDate (t.year + 1) b.month b.day = some (addDays t k) := by
      rw [hbm1, hwrec]
      rw [hwrec] at hwv hcapk
      exact mkDate_of_valid hwv hcapk
    have hdbm1 : daysBeforeMonth t.year 1 = 0 := by
      simp [daysBeforeMonth, daysBeforeMonthTable]
    have hdbm2 : daysBeforeMonth (t.year + 1) 1 = 0 := by
      simp [daysBeforeMonth, daysBeforeMonthTable]
    have hsucc := dby_succ t.year ht.1
    have e1 : dayNumber (⟨t.year, 1, b.day⟩ : Date) = daysBeforeYear t.year + b.day := by
      simp [dayNumber, hdbm1]
    have e2 : dayNumber (⟨t.year + 1, 1, b.day⟩ : Date) =
        daysBeforeYear (t.year + 1) + b.day := by
      simp [dayNumber, hdbm2]
    have hdnw : dayNumber (⟨t.year + 1, 1, b.day⟩ : Date) = dayNumber t + k := by
      rw [← hwrec]
      exact hdnk
    rw [e2] at hdnw
    have hneg : dayDiff ⟨t.year, 1, b.day⟩ t < 0 := by
      unfold dayDiff
      rw [e1]
      by_cases hL : isLeap t.year = true
      · rw [if_pos hL] at hsucc; omega
      · rw [if_neg hL] at hsucc; omega
    have hir1 : inRange7 (dayDiff ⟨t.year, 1, b.day⟩ t) = false := inRange7_neg hneg
    have hirk : inRange7 ((k : Nat) : Int) = true :=
      (inRange7_iff _).mpr ⟨by omega, by omega⟩
    constructor
    · unfold probeOk
      rw [hmk1]
      dsimp only
      rw [if_neg (by rw [hir1]; simp), hmk2]
      dsimp only
      rw [hdiff, hirk]
    · unfold specProbe
      rw [hmk1, hmk2]
      dsimp only
      rw [hir1, hdiff, hirk]
      simp

/-- If the code's probe test accepts, the birthday really is in the window. -/
theorem window_of_probeOk {t b : Date} (ht : validParts t)
    (h : probeOk t b = some true) : monthDayInWindow t b = true := by
  unfold probeOk at h
  cases hm1 : mkDate t.year b.month b.day with
  | none => rw [hm1] at h; cases h
  | some d1 =>
      rw [hm1] at h
      dsimp only at h
      by_cases hir : inRange7 (dayDiff d1 t) = true
      · exact window_of_probe ht hm1 hir
      · rw [if_neg hir] at h
        cases hm2 : mkDate (t.year + 1) b.month b.day with
        | none => rw [hm2] at h; cases h
        | some d2 =>
            rw [hm2] at h
            injection h with h'
            exact window_of_probe ht hm2 h'

/-- If the claim's probe test accepts, the birthday really is in the window. -/
theorem window_of_specProbe {t b : Date} (ht : validParts t)
    (h : specProbe t b = true) : monthDayInWindow t b = true := by
  unfold specProbe at h
  rw [Bool.or_eq_true] at h
  rcases h with h | h
  · cases hm1 : mkDate t.year b.month b.day with
    | none => rw [hm1] at h; cases h
    | some d1 =>
        rw [hm1] at h
        exact window_of_probe ht hm1 h
  · cases hm2 : mkDate (t.year + 1) b.month b.day with
    | none => rw [hm2] at h; cases h
    | some d2 =>
        rw [hm2] at h
        exact window_of_probe ht hm2 h

/-- When the probe does not raise, its verdict is exactly window
membership. -/
theorem probe_window_eq {t b : Date} {bv : Bool} (ht : validParts t)
    (hcap : (addDays t 7).year ≤ 9999)
    (h : probeOk t b = some bv) : bv = monthDayInWindow t b := by
  cases hwin : monthDayInWindow t b with
  | false =>
      cases hbv : bv with
      | false => rfl
      | true =>
          rw [hbv] at h
          rw [window_of_probeOk ht h] at hwin
          cases hwin
  | true =>
      have := (probe_of_window ht hcap hwin).1
      rw [h] at this
      injection this

/-- The claim's probe test coincides with window membership. -/
theorem specProbe_eq_window {t b : Date} (ht : validParts t)
    (hcap : (addDays t 7).year ≤ 9999) :
    specProbe t b = monthDayInWindow t b := by
  cases hwin : monthDayInWindow t b with
  | false =>
      cases hs : specProbe t b with
      | false => rfl
      | true =>
          rw [window_of_specProbe ht hs] at hwin
          cases hwin
  | true => exact (probe_of_window ht hcap hwin).2

/-- When the comprehension completes, every element was probed successfully
and the result is the sublist of accepted elements. -/
theorem filterProbe_spec {t : Date} :
    ∀ {l res : List Contact}, filterProbe t l = some res →
      (∀ c ∈ l, ∃ bv, probeOk t c.birth_date = some bv) ∧
      res = l.filter (fun c => probeOk t c.birth_date == some true) := by
  intro l
  induction l with
  | nil =>
      intro res h
      injection h with h'
      exact ⟨fun c hc => absurd hc (List.not_mem_nil c), h'.symm⟩
  | cons c rest ih =>
      intro res h
      unfold filterProbe at h
      cases hp : probeOk t c.birth_date with
      | none => rw [hp] at h; cases h
      | some bv =>
          rw [hp] at h
          dsimp only at h
          cases hr : filterProbe t rest with
          | none => rw [hr] at h; cases h
          | some r =>
              rw [hr] at h
              dsimp only at h
              injection h with h'
              obtain ⟨ihall, ihres⟩ := ih hr
              constructor
              · intro x hx
                rcases List.mem_cons.mp hx with hx | hx
                · exact ⟨bv, hx ▸ hp⟩
                · exact ihall x hx
              · rw [← h']
                cases hbv : bv with
                | false =>
                    rw [hbv] at hp
                    simp [List.filter_cons, hp, ihres]
                | true =>
                    rw [hbv] at hp
                    simp [List.filter_cons, hp, ihres]

/-- Window membership implies the SQL prefilter accepts the row. -/
theorem pre_of_window {t b : Date} (ht : validParts t)
    (hw : monthDayInWindow t b = true) :
    ((b.month == t.month && decide (t.day ≤ b.day) &&
        decide (b.day < t.day + 7)) ||
     (b.month == t.month % 12 + 1 &&
        decide (b.day ≤ (addDays t 7).day))) = true := by
  unfold monthDayInWindow at hw
  rw [List.any_eq_true] at hw
  obtain ⟨k, hkmem, hkeq⟩ := hw
  have hk7 : k < 7 := List.mem_range.mp hkmem
  simp only [Bool.and_eq_true, beq_iff_eq] at hkeq
  obtain ⟨hbm, hbd⟩ := hkeq
  rcases addDays_week_shape ht k (by omega) with ⟨_, hm, hd⟩ | ⟨hm, hd1, hd2, _⟩
  · rw [Bool.or_eq_true]
    left
    rw [hm] at hbm
    rw [hd] at hbd
    simp only [Bool.and_eq_true, beq_iff_eq, decide_eq_true_eq]
    exact ⟨⟨hbm.symm, by omega⟩, by omega⟩
  · rw [Bool.or_eq_true]
    right
    have hadv := addDays_next_month_advance hm hd2 7 (by omega) (by omega)
    simp only [Bool.and_eq_true, beq_iff_eq, decide_eq_true_eq]
    constructor
    · rw [← hbm, hm]
    · rw [← hbd]
      omega

/-- Main characterization: whenever `get_upcoming_birthdays` completes
without raising, it returns exactly the owner's contacts whose birth
month/day lies in `[today, today + 7)`. -/
theorem birthday_window_characterization {today : Date} {u : User}
    {db res : List Contact} (ht : validParts today)
    (h : get_upcoming_birthdays today u db = some res) :
    res = db.filter
      (fun c => c.owner_id == u.id && monthDayInWindow today c.birth_date) := by
  unfold get_upcoming_birthdays at h
  dsimp only at h
  split at h
  · cases h
  · rename_i hcap
    cases hnm : mkDate today.year (today.month % 12 + 1) today.day with
    | none => rw [hnm] at h; cases h
    | some nm =>
        rw [hnm] at h
        obtain ⟨hnm_rec, _, _⟩ := mkDate_eq_some hnm
        have hnmm : nm.month = today.month % 12 + 1 := by rw [hnm_rec]
        obtain ⟨hall, hres⟩ := filterProbe_spec h
        rw [hres, List.filter_filter]
        apply List.filter_congr
        intro c hc
        cases howner : (c.owner_id == u.id) with
        | false => simp [birthdayPre, howner]
        | true =>
            by_cases hw : monthDayInWindow today c.birth_date = true
            · have hpre : birthdayPre today nm.month (addDays today 7).day u c = true := by
                unfold birthdayPre
                rw [howner, hnmm]
                simpa using pre_of_window ht hw
              have hcmem : c ∈ db.filter
                  (birthdayPre today nm.month (addDays today 7).day u) :=
                List.mem_filter.mpr ⟨hc, hpre⟩
              obtain ⟨bv, hbv⟩ := hall c hcmem
              have hbvw : bv = monthDayInWindow today c.birth_date :=
                probe_window_eq ht (by omega) hbv
              rw [hw] at hbvw
              rw [hpre, hbv, hbvw, hw]
              simp
            · have hwf : monthDayInWindow today c.birth_date = false := by
                cases hww : monthDayInWindow today c.birth_date
                · rfl
                · exact absurd hww hw
              cases hpre : birthdayPre today nm.month (addDays today 7).day u c with
              | false => simp [hpre, hwf]
              | true =>
                  have hcmem : c ∈ db.filter
                      (birthdayPre today nm.month (addDays today 7).day u) :=
                    List.mem_filter.mpr ⟨hc, hpre⟩
                  obtain ⟨bv, hbv⟩ := hall c hcmem
                  have hbvw : bv = monthDayInWindow today c.birth_date :=
                    probe_window_eq ht (by omega) hbv
                  rw [hwf] at hbvw
                  rw [hbv, hbvw, hwf]
                  simp

theorem get_upcoming_some_cap {today : Date} {u : User} {db res : List Contact}
    (h : get_upcoming_birthdays today u db = some res) :
    (addDays today 7).year ≤ 9999 := by
  unfold get_upcoming_birthdays at h
  dsimp only at h
  split at h
  · cases h
  · rename_i hcap
    omega

/-- Counterexample to C2 as universally stated: on January 30 the query
raises (`today.replace(month=2)` builds February 30) for every user and
store, so it does not return the window set — not even the empty one. -/
theorem upcoming_birthdays_window_cex :
    get_upcoming_birthdays ⟨2024, 1, 30⟩ ⟨1, "a@x", none, true⟩ [] ≠
      some (([] : List Contact).filter
        (fun c => c.owner_id == (1 : Nat) &&
          monthDayInWindow ⟨2024, 1, 30⟩ c.birth_date)) := by
  decide

/-- **C2 (amended).** For every valid `today` and every store on which
`get_upcoming_birthdays` completes without raising, it returns exactly the
user's owned contacts whose birth month/day (year ignored) falls in the
inclusive-exclusive window `[today, today + 7 days)`: the contact born on
today's month/day is included and a contact exactly 7 days out is excluded. -/
theorem upcoming_birthdays_window {today : Date} {u : User}
    {db res : List Contact} (ht : validParts today)
    (h : get_upcoming_birthdays today u db = some res) :
    res = db.filter
      (fun c => c.owner_id == u.id && monthDayInWindow today c.birth_date) :=
  birthday_window_characterization ht h

/-- Concrete instance of C2 (amended), the spec's own scenario: today
2024-06-01; a birthday on June 5 (4 days out) is returned, one on June 9
(8 days out, outside the `< 7` boundary) is not. -/
theorem upcoming_birthdays_window_witness :
    ([⟨1, "A", "B", "a@x", "1", ⟨1990, 6, 5⟩, none, 1⟩] : List Contact) =
      ([⟨1, "A", "B", "a@x", "1", ⟨1990, 6, 5⟩, none, 1⟩,
        ⟨2, "C", "D", "c@x", "2", ⟨1990, 6, 9⟩, none, 1⟩] : List Contact).filter
        (fun c => c.owner_id == (⟨1, "u@x", none, true⟩ : User).id &&
          monthDayInWindow ⟨2024, 6, 1⟩ c.birth_date) :=
  @upcoming_birthdays_window ⟨2024, 6, 1⟩ ⟨1, "u@x", none, true⟩
    [⟨1, "A", "B", "a@x", "1", ⟨1990, 6, 5⟩, none, 1⟩,
     ⟨2, "C", "D", "c@x", "2", ⟨1990, 6, 9⟩, none, 1⟩]
    [⟨1, "A", "B", "a@x", "1", ⟨1990, 6, 5⟩, none, 1⟩]
    (by decide) (by decide)

/-- **C3.** When the query completes, a contact is returned exactly when it
is the user's and one of its two probe dates — the birthday constructed in
the current year and in the next year — falls within `[today, today + 7)`
days of today (`specProbe`); the wraparound witness is Dec 30 → Jan 2. -/
theorem birthday_probe_spec {today : Date} {u : User} {db res : List Contact}
    (ht : validParts today)
    (h : get_upcoming_birthdays today u db = some res) (c : Contact) :
    c ∈ res ↔ (c ∈ db ∧ c.owner_id = u.id ∧
      specProbe today c.birth_date = true) := by
  have hcap := get_upcoming_some_cap h
  rw [birthday_window_characterization ht h, List.mem_filter]
  simp only [Bool.and_eq_true, beq_iff_eq]
  rw [← specProbe_eq_window ht hcap]

/-- Concrete instance of C3, the claim's wraparound case: today Dec 30, a
contact with birthday Jan 2 is in the result. -/
theorem birthday_probe_spec_witness :
    validParts (⟨2024, 12, 30⟩ : Date) ∧
    (⟨5, "Jan", "Kid", "jan@x", "1", ⟨1990, 1, 2⟩, none, 1⟩ : Contact) ∈
      ([⟨5, "Jan", "Kid", "jan@x", "1", ⟨1990, 1, 2⟩, none, 1⟩] : List Contact) := by
  have h := @birthday_probe_spec ⟨2024, 12, 30⟩ ⟨1, "u@x", none, true⟩
    [⟨5, "Jan", "Kid", "jan@x", "1", ⟨1990, 1, 2⟩, none, 1⟩]
    [⟨5, "Jan", "Kid", "jan@x", "1", ⟨1990, 1, 2⟩, none, 1⟩]
    (by decide) (by decide)
    ⟨5, "Jan", "Kid", "jan@x", "1", ⟨1990, 1, 2⟩, none, 1⟩
  exact ⟨by decide, h.mpr ⟨by decide, rfl, by decide⟩⟩

/-- **C4.** The code is not total in `today`: on 2024-03-31 the next-month
probe `today.replace(month=4)` builds April 31 and raises `ValueError`, so
the whole request fails (`none`) — even though the store holds an owned
contact (birthday April 3) squarely inside the 7-day window. -/
theorem upcoming_birthdays_raises :
    get_upcoming_birthdays ⟨2024, 3, 31⟩ ⟨1, "a@x", none, true⟩
      [⟨1, "Apr", "Kid", "apr@x", "1", ⟨1990, 4, 3⟩, none, 1⟩] = none ∧
    monthDayInWindow ⟨2024, 3, 31⟩ ⟨1990, 4, 3⟩ = true := by
  decide

end ContactApp
